import Mathlib

/-!
Shallow embedding of the cache subsystem of the bookinfo details service
(`src/main.go`): the `detailsResponse` payload, the `cacheEntry`/`cache`
store with its lazy-expiry `get`, replacing `set`, raw-size `length` and
once-per-second background sweep, the inert `noopCache`, the
`responseCache` facade dispatching to one of the two variants, and the
startup variant selection performed in `main`.

Timestamps and durations are modelled as unbounded integers (Go
`time.Time` / `time.Duration` comparisons: `a.After(b)` is `a > b`,
`a.Before(b)` is `a < b`, `t.Add(d)` is `t + d`).  The Go map
`map[int]*cacheEntry` is modelled as an association list in which a `set`
removes any previous binding for the key before prepending the fresh one,
so the list length coincides with the Go map's `len`.
-/

/-- The cached payload (`detailsResponse` in `src/main.go`).  The Go field
`Type` is rendered `Type'` because `Type` is reserved in Lean; `Pages` is
Go `int64`, modelled as `Int`. -/
structure detailsResponse where
  ID : Int
  Author : String
  Year : String
  Type' : String
  Pages : Int
  Publisher : String
  Language : String
  Isbn10 : String
  Isbn13 : String
deriving DecidableEq

/-- A stored entry (`cacheEntry` in `src/main.go`): the cached response and
the absolute expiry timestamp (the Go field is named `ttl`). -/
structure cacheEntry where
  response : detailsResponse
  ttl : Int
deriving DecidableEq

/-- The caching store (`cache` in `src/main.go`): the configured TTL
duration and the entries map.  The mutex only serialises access and has no
counterpart in this sequential model. -/
structure cache where
  expiry : Int
  entries : List (Int × cacheEntry)
deriving DecidableEq

/-- Lookup in the entries map: the Go read `c.entries[id]`. -/
def findEntry : List (Int × cacheEntry) → Int → Option cacheEntry
  | [], _ => none
  | (k, e) :: rest, id => if k = id then some e else findEntry rest id

/-- Drop every binding for `id`; used to model the overwriting Go map
assignment `c.entries[d.ID] = ...` while keeping one binding per key. -/
def removeKey (entries : List (Int × cacheEntry)) (id : Int) : List (Int × cacheEntry) :=
  entries.filter (fun p => !(decide (p.1 = id)))

/-- `newCache` from `src/main.go`: a store with the given TTL and an empty
entries map.  (The goroutine it launches is modelled separately by
`cache.sweep`, one application per sweep cycle.) -/
def newCache (expiry : Int) : cache :=
  { expiry := expiry, entries := [] }

/-- `(*cache).get` from `src/main.go`: missing key yields `nil`; an entry
with `time.Now().After(e.ttl)` (strictly `now > ttl`) yields `nil`;
otherwise the stored response is returned.  No state is modified. -/
def cache.get (c : cache) (now : Int) (id : Int) : Option detailsResponse :=
  match findEntry c.entries id with
  | none => none
  | some e => if now > e.ttl then none else some e.response

/-- `(*cache).set` from `src/main.go`: binds `d.ID` to a fresh entry whose
expiry is `time.Now().Add(c.expiry)`, replacing any previous binding. -/
def cache.set (c : cache) (now : Int) (d : detailsResponse) : cache :=
  { c with entries :=
      (d.ID, { response := d, ttl := now + c.expiry }) :: removeKey c.entries d.ID }

/-- One cycle of the background goroutine launched by `newCache`: with the
lock held it deletes every entry whose `ttl.Before(now)` (strictly
`ttl < now`) and keeps everything else. -/
def cache.sweep (c : cache) (now : Int) : cache :=
  { c with entries := c.entries.filter (fun p => !(decide (p.2.ttl < now))) }

/-- `(*cache).length` from `src/main.go`: `len(c.entries)`, the raw map
size, with no expiry filtering. -/
def cache.length (c : cache) : Nat :=
  c.entries.length

/-- `(*noopCache).get`: always `nil`. -/
def noopCache.get (_id : Int) : Option detailsResponse :=
  none

/-- `(*noopCache).set`: does nothing. -/
def noopCache.set (_d : detailsResponse) : Unit :=
  ()

/-- `(*noopCache).length`: always `0`. -/
def noopCache.length : Nat :=
  0

/-- The `responseCache` facade of `src/main.go`, a duck-typed interface
with exactly two implementors, rendered as a tagged variant: the caching
store or the no-op store. -/
inductive responseCache where
  | cacheStore (c : cache)
  | noop
deriving DecidableEq

/-- Facade dispatch of `get` to the active variant. -/
def responseCache.get : responseCache → Int → Int → Option detailsResponse
  | .cacheStore c, now, id => c.get now id
  | .noop, _, id => noopCache.get id

/-- Facade dispatch of `set` to the active variant. -/
def responseCache.set : responseCache → Int → detailsResponse → responseCache
  | .cacheStore c, now, d => .cacheStore (c.set now d)
  | .noop, _, d =>
      match noopCache.set d with
      | () => .noop

/-- Facade dispatch of `length` to the active variant. -/
def responseCache.length : responseCache → Nat
  | .cacheStore c => c.length
  | .noop => noopCache.length

/-- The startup variant selection in `main` (`src/main.go` lines 349-354):
`if expiry > time.Duration(0) { store = newCache(expiry) } else
{ store = &noopCache{} }`.  It runs exactly once, so it is modelled as a
single pure function applied once to the configured TTL. -/
def selectStore (expiry : Int) : responseCache :=
  if expiry > 0 then .cacheStore (newCache expiry) else .noop

/-- A facade call, time-stamped where the code reads the clock; `sweep`
stands for a wake-up of the background eviction task (which only the
caching store has). -/
inductive Op where
  | get (now id : Int)
  | set (now : Int) (d : detailsResponse)
  | len
  | sweep (now : Int)

/-- The value an operation produces: `get` yields the sentinel-or-value
result, `set` and `sweep` yield nothing, `len` yields a count. -/
inductive OpResult where
  | got (r : Option detailsResponse)
  | done
  | count (n : Nat)
deriving DecidableEq

/-- Execute one operation against the active store; total, mirroring the
error-free Go methods. -/
def step (s : responseCache) : Op → responseCache × OpResult
  | .get now id => (s, .got (s.get now id))
  | .set now d => (s.set now d, .done)
  | .len => (s, .count s.length)
  | .sweep now =>
      match s with
      | .cacheStore c => (.cacheStore (c.sweep now), .done)
      | .noop => (.noop, .done)

/-- Execute a whole sequence of operations, collecting every result. -/
def runOps (s : responseCache) : List Op → responseCache × List OpResult
  | [] => (s, [])
  | op :: rest =>
      let out := step s op
      let tail := runOps out.1 rest
      (tail.1, out.2 :: tail.2)

/-- Apply one sweep cycle per timestamp in the list, in order. -/
def applySweeps (c : cache) : List Int → cache
  | [] => c
  | s :: rest => applySweeps (c.sweep s) rest

/-- A concrete payload used by counterexamples and witnesses. -/
def dEx : detailsResponse :=
  { ID := 7, Author := "a", Year := "1999", Type' := "paperback"
    Pages := 210, Publisher := "p", Language := "English"
    Isbn10 := "0486424618", Isbn13 := "978-0486424613" }

/-- A second concrete payload with the same ID, for overwrite scenarios. -/
def dEx2 : detailsResponse :=
  { dEx with Author := "b", Year := "2001" }

/-- The keyed-by-own-ID invariant of the entries map (claim C9): every
binding's stored response carries the binding's key as its ID. -/
def cacheWF (c : cache) : Prop :=
  ∀ p ∈ c.entries, p.2.response.ID = p.1

instance (c : cache) : Decidable (cacheWF c) := by
  unfold cacheWF
  infer_instance

/-- A successful lookup returns a binding present in the list. -/
theorem findEntry_mem {l : List (Int × cacheEntry)} {k : Int} {e : cacheEntry}
    (h : findEntry l k = some e) : (k, e) ∈ l := by
  induction l with
  | nil => simp [findEntry] at h
  | cons hd tl ih =>
    obtain ⟨k2, e2⟩ := hd
    by_cases hk : k2 = k
    · subst hk
      simp [findEntry] at h
      subst h
      exact List.mem_cons_self _ _
    · simp [findEntry, hk] at h
      exact List.mem_cons_of_mem _ (ih h)

/-- Filtering keeps a lookup result whose binding satisfies the filter:
the bindings before the first match for `k` have other keys, so the first
match is unchanged. -/
theorem findEntry_filter {l : List (Int × cacheEntry)} {k : Int} {e : cacheEntry}
    (p : Int × cacheEntry → Bool)
    (h : findEntry l k = some e) (hp : p (k, e) = true) :
    findEntry (l.filter p) k = some e := by
  induction l with
  | nil => simp [findEntry] at h
  | cons hd tl ih =>
    obtain ⟨k2, e2⟩ := hd
    by_cases hk : k2 = k
    · subst hk
      simp [findEntry] at h
      subst h
      simp [List.filter_cons, hp, findEntry]
    · simp [findEntry, hk] at h
      cases hpc : p (k2, e2) with
      | true => simp [List.filter_cons, hpc, findEntry, hk, ih h]
      | false => simp [List.filter_cons, hpc, ih h]

/-- Looking up the key just written by `set` yields the fresh entry, whose
expiry is the write time plus the configured TTL. -/
theorem findEntry_set_self (c : cache) (now : Int) (d : detailsResponse) :
    findEntry (c.set now d).entries d.ID = some ⟨d, now + c.expiry⟩ := by
  simp [cache.set, findEntry]

/-- A lookup result whose expiry no sweep time exceeds survives any
sequence of sweep cycles. -/
theorem findEntry_applySweeps (ss : List Int) (c : cache) (k : Int) (e : cacheEntry)
    (h : findEntry c.entries k = some e) (hs : ∀ s ∈ ss, ¬ e.ttl < s) :
    findEntry (applySweeps c ss).entries k = some e := by
  induction ss generalizing c with
  | nil => exact h
  | cons s rest ih =>
    have h1 : findEntry (c.sweep s).entries k = some e := by
      apply findEntry_filter _ h
      simpa using hs s (List.mem_cons_self s rest)
    exact ih (c.sweep s) h1 (fun s2 hs2 => hs s2 (List.mem_cons_of_mem _ hs2))

/-- C1: after `set` of a value `v` at time `t0` on a store with positive
TTL, the stored expiry is `t0` plus the configured TTL, and a `get` with
`v`'s identifying key at any time `t` before that TTL has elapsed — even
with arbitrarily many intervening background-sweep cycles at times up to
`t`, and for any number of such calls since `get` does not change state —
returns `v`. -/
theorem C1_get_hits_before_ttl (c : cache) (t0 : Int) (d : detailsResponse)
    (ss : List Int) (t : Int) (hpos : 0 < c.expiry)
    (hss : ∀ s ∈ ss, s ≤ t) (ht : t < t0 + c.expiry) :
    findEntry (c.set t0 d).entries d.ID = some ⟨d, t0 + c.expiry⟩ ∧
    (applySweeps (c.set t0 d) ss).get t d.ID = some d := by
  have hfind := findEntry_set_self c t0 d
  refine ⟨hfind, ?_⟩
  have h2 : findEntry (applySweeps (c.set t0 d) ss).entries d.ID =
      some ⟨d, t0 + c.expiry⟩ := by
    apply findEntry_applySweeps ss _ _ _ hfind
    intro s hs
    have := hss s hs
    simp only [not_lt]
    omega
  unfold cache.get
  rw [h2]
  dsimp only
  rw [if_neg (by omega)]

/-- Closed instance of C1: TTL 10, write at time 0, sweeps at 1 and 2,
read at time 3. -/
theorem C1_get_hits_before_ttl_witness :
    findEntry ((newCache 10).set 0 dEx).entries dEx.ID =
      some ⟨dEx, 0 + (newCache 10).expiry⟩ ∧
    (applySweeps ((newCache 10).set 0 dEx) [1, 2]).get 3 dEx.ID = some dEx :=
  C1_get_hits_before_ttl (newCache 10) 0 dEx [1, 2] 3 (by decide)
    (by intro s hs; fin_cases hs <;> decide) (by decide)

/-- C2: on a freshly constructed store with positive TTL every `get`
misses; in general `get` reports absent exactly when the key has no
binding or the binding's expiry lies strictly in the past at read time
(the lazy check); and a `get` never changes the store's state, so a miss
has no side effects. -/
theorem C2_get_absent_characterisation (ttl0 now k : Int) (c : cache) (id : Int)
    (hpos : 0 < ttl0) :
    (newCache ttl0).get now k = none ∧
    (c.get now id = none ↔
      findEntry c.entries id = none ∨
        ∃ e, findEntry c.entries id = some e ∧ e.ttl < now) ∧
    (∀ s : responseCache, (step s (Op.get now id)).1 = s) := by
  refine ⟨rfl, ?_, fun s => rfl⟩
  unfold cache.get
  cases hfe : findEntry c.entries id with
  | none => simp
  | some e =>
    dsimp only
    constructor
    · intro h
      right
      refine ⟨e, rfl, ?_⟩
      by_contra hnot
      rw [if_neg (by omega)] at h
      exact Option.noConfusion h
    · rintro (h | ⟨e2, he2, hlt2⟩)
      · exact Option.noConfusion h
      · injection he2 with he
        subst he
        rw [if_pos (by omega)]

/-- Closed instance of C2: TTL 5, fresh-store miss at time 2 for key 1,
and the characterisation on a store holding key 7. -/
theorem C2_get_absent_characterisation_witness :
    (newCache 5).get 2 1 = none ∧
    (((newCache 5).set 0 dEx).get 2 7 = none ↔
      findEntry ((newCache 5).set 0 dEx).entries 7 = none ∨
        ∃ e, findEntry ((newCache 5).set 0 dEx).entries 7 = some e ∧
          e.ttl < 2) ∧
    (∀ s : responseCache, (step s (Op.get 2 7)).1 = s) :=
  C2_get_absent_characterisation 5 2 1 ((newCache 5).set 0 dEx) 7 (by decide)
/-- C3 counterexample: a store with TTL 5 written at time −5 holds an
entry whose expiry is 0, i.e. at (not before) the sweep's current time 0;
the claim says the sweep removes every entry whose expiry is at or before
the current time, yet this entry survives the sweep, because the code's
`ttl.Before(now)` test is strict. -/
theorem C3_sweep_cex :
    (cacheEntry.mk dEx 0).ttl ≤ 0 ∧
    (7, cacheEntry.mk dEx 0) ∈ (((newCache 5).set (-5) dEx).sweep 0).entries := by
  constructor
  · decide
  · simp [newCache, cache.set, cache.sweep, removeKey, dEx]

/-- C3 amended: each sweep cycle removes exactly the entries whose expiry
is strictly before the current time — a binding survives the sweep iff it
was present and its expiry is at or after the current time — and the sweep
changes nothing else (in particular the configured TTL). -/
theorem C3_sweep_removes_strictly_expired (c : cache) (now k : Int) (e : cacheEntry) :
    ((k, e) ∈ (c.sweep now).entries ↔ (k, e) ∈ c.entries ∧ now ≤ e.ttl) ∧
    (c.sweep now).expiry = c.expiry := by
  refine ⟨?_, rfl⟩
  simp only [cache.sweep, List.mem_filter, Bool.not_eq_true', decide_eq_false_iff_not, not_lt]

/-- C4 counterexample: with TTL 5 and a write at time 0, a `get` at time 5
returns the value although the unique entry backing it has expiry 5, which
is not strictly in the future at the moment of the `get` (the code's
`now.After(ttl)` test is strict). -/
theorem C4_reachable_entry_cex :
    ((newCache 5).set 0 dEx).get 5 7 = some dEx ∧
    findEntry ((newCache 5).set 0 dEx).entries 7 = some (cacheEntry.mk dEx 5) ∧
    ¬ ((5 : Int) < (cacheEntry.mk dEx 5).ttl) := by
  refine ⟨?_, ?_, by decide⟩
  · simp [newCache, cache.set, cache.get, removeKey, findEntry, dEx]
  · simp [newCache, cache.set, removeKey, findEntry, dEx]

/-- C4 amended: every value that `get` returns (rather than reporting
absent) is backed by an entry whose expiry is at or after — not
necessarily strictly after — the moment of the `get`. -/
theorem C4_reachable_entry_unexpired (c : cache) (now id : Int) (v : detailsResponse)
    (h : c.get now id = some v) :
    ∃ e, findEntry c.entries id = some e ∧ e.response = v ∧ now ≤ e.ttl := by
  unfold cache.get at h
  cases hfe : findEntry c.entries id with
  | none => rw [hfe] at h; exact Option.noConfusion h
  | some e =>
    rw [hfe] at h
    dsimp only at h
    by_cases hlt : now > e.ttl
    · rw [if_pos hlt] at h
      exact Option.noConfusion h
    · rw [if_neg hlt] at h
      injection h with hv
      exact ⟨e, rfl, hv, by omega⟩

/-- Closed instance of C4 as amended: TTL 5, write at time 0, read at
time 3 for key 7. -/
theorem C4_reachable_entry_unexpired_witness :
    ∃ e, findEntry ((newCache 5).set 0 dEx).entries 7 = some e ∧
      e.response = dEx ∧ (3 : Int) ≤ e.ttl :=
  C4_reachable_entry_unexpired ((newCache 5).set 0 dEx) 3 7 dEx (by decide)

/-- C5: a second `set` for the same identifying key replaces the entry
wholesale — the key's binding afterwards is exactly the fresh entry built
from the second value, with expiry measured from the second write — so a
`get` performed after the first entry's original TTL would have elapsed
but before the second entry's TTL elapses returns the second value. -/
theorem C5_overwrite_resets_expiry (c : cache) (t0 t1 t : Int)
    (d1 d2 : detailsResponse) (hid : d1.ID = d2.ID)
    (h1 : t0 + c.expiry < t) (h2 : t < t1 + c.expiry) :
    findEntry ((c.set t0 d1).set t1 d2).entries d2.ID = some ⟨d2, t1 + c.expiry⟩ ∧
    ((c.set t0 d1).set t1 d2).get t d2.ID = some d2 := by
  have hfind : findEntry ((c.set t0 d1).set t1 d2).entries d2.ID =
      some ⟨d2, t1 + c.expiry⟩ := findEntry_set_self (c.set t0 d1) t1 d2
  refine ⟨hfind, ?_⟩
  unfold cache.get
  rw [hfind]
  dsimp only
  rw [if_neg (by omega)]

/-- Closed instance of C5: TTL 10, first write at 0, second write at 5,
read at 12 (after 0 + 10, before 5 + 10). -/
theorem C5_overwrite_resets_expiry_witness :
    findEntry (((newCache 10).set 0 dEx).set 5 dEx2).entries dEx2.ID =
      some ⟨dEx2, 5 + ((newCache 10).set 0 dEx).expiry⟩ ∧
    (((newCache 10).set 0 dEx).set 5 dEx2).get 12 dEx2.ID = some dEx2 :=
  C5_overwrite_resets_expiry (newCache 10) 0 5 12 dEx dEx2 (by decide)
    (by decide) (by decide)

/-- C6 counterexample: the configured TTL −1 is not zero, so by the claim
the Cache Store should be selected with that TTL, yet startup selects the
Null Store, because the code tests `expiry > 0`, not `expiry != 0`. -/
theorem C6_selection_cex :
    ((-1 : Int) ≠ 0) ∧ selectStore (-1) = responseCache.noop := by
  constructor
  · decide
  · rfl

/-- C6 amended: at startup, a positive configured TTL selects the Cache
Store with that TTL and any non-positive TTL (zero, unset, or negative)
selects the Null Store; the decision is a single pure function of the
configuration, applied exactly once in `main` and never re-evaluated. -/
theorem C6_variant_selection (e : Int) :
    (0 < e → selectStore e = responseCache.cacheStore (newCache e)) ∧
    (e ≤ 0 → selectStore e = responseCache.noop) := by
  constructor
  · intro h
    unfold selectStore
    rw [if_pos h]
  · intro h
    unfold selectStore
    rw [if_neg (by omega)]

/-- Closed instances of C6 as amended: TTL 3 picks the caching store,
TTL 0 picks the no-op store. -/
theorem C6_variant_selection_witness :
    selectStore 3 = responseCache.cacheStore (newCache 3) ∧
    selectStore 0 = responseCache.noop :=
  ⟨(C6_variant_selection 3).1 (by decide), (C6_variant_selection 0).2 (by decide)⟩

/-- C7: the Null Store is inert — running any sequence of operations from
it leaves it unchanged, and the produced results are fully determined:
every `get` (even one immediately after a `set` of the same key) reports
absent, every `length` reports 0, and every `set` just completes. -/
theorem C7_null_store_inert (ops : List Op) :
    (runOps responseCache.noop ops).1 = responseCache.noop ∧
    (runOps responseCache.noop ops).2 = ops.map (fun op =>
      match op with
      | Op.get _ _ => OpResult.got none
      | Op.set _ _ => OpResult.done
      | Op.len => OpResult.count 0
      | Op.sweep _ => OpResult.done) := by
  induction ops with
  | nil => exact ⟨rfl, rfl⟩
  | cons op rest ih =>
    cases op with
    | get now id =>
      exact ⟨ih.1, by simp only [runOps, step, List.map_cons]; exact congrArg _ ih.2⟩
    | set now d =>
      exact ⟨ih.1, by simp only [runOps, step, List.map_cons]; exact congrArg _ ih.2⟩
    | len =>
      exact ⟨ih.1, by simp only [runOps, step, List.map_cons]; exact congrArg _ ih.2⟩
    | sweep now =>
      exact ⟨ih.1, by simp only [runOps, step, List.map_cons]; exact congrArg _ ih.2⟩

/-- C8: every facade operation is total with no error path — running any
sequence of operations against either variant produces exactly one result
per operation, and a `get` result is always either the distinguished
"no value" sentinel or a value, never an error. -/
theorem C8_operations_total (s : responseCache) (ops : List Op) (now id : Int) :
    (runOps s ops).2.length = ops.length ∧
    (s.get now id = none ∨ ∃ v, s.get now id = some v) := by
  constructor
  · induction ops generalizing s with
    | nil => rfl
    | cons op rest ih =>
      simp only [runOps, List.length_cons]
      exact congrArg Nat.succ (ih (step s op).1)
  · cases h : s.get now id with
    | none => exact Or.inl rfl
    | some v => exact Or.inr ⟨v, rfl⟩

/-- C9: every binding of the entries map carries its own value's ID as its
key: a fresh store satisfies this, `set` preserves it because it derives
the storage key from the value's `ID` field, the sweep preserves it
because it only deletes, and consequently a non-absent `get id` always
returns a value whose `ID` field equals `id`. -/
theorem C9_key_is_value_id :
    (∀ e : Int, cacheWF (newCache e)) ∧
    (∀ (c : cache) (now : Int) (d : detailsResponse),
      cacheWF c → cacheWF (c.set now d)) ∧
    (∀ (c : cache) (now : Int), cacheWF c → cacheWF (c.sweep now)) ∧
    (∀ (c : cache) (now id : Int) (v : detailsResponse),
      cacheWF c → c.get now id = some v → v.ID = id) := by
  refine ⟨?_, ?_, ?_, ?_⟩
  · intro e p hp
    simp [newCache] at hp
  · intro c now d hwf p hp
    simp only [cache.set, List.mem_cons] at hp
    cases hp with
    | inl h => subst h; rfl
    | inr h => exact hwf p (List.mem_of_mem_filter h)
  · intro c now hwf p hp
    exact hwf p (List.mem_of_mem_filter hp)
  · intro c now id v hwf hget
    unfold cache.get at hget
    cases hfe : findEntry c.entries id with
    | none => rw [hfe] at hget; exact Option.noConfusion hget
    | some e =>
      rw [hfe] at hget
      dsimp only at hget
      by_cases hlt : now > e.ttl
      · rw [if_pos hlt] at hget
        exact Option.noConfusion hget
      · rw [if_neg hlt] at hget
        injection hget with hv
        rw [← hv]
        exact hwf (id, e) (findEntry_mem hfe)

/-- Closed instances of C9: the invariant on a fresh store, after a write,
after a sweep, and the ID of a concrete successful `get`. -/
theorem C9_key_is_value_id_witness :
    cacheWF (newCache 5) ∧
    cacheWF ((newCache 5).set 0 dEx) ∧
    cacheWF (((newCache 5).set 0 dEx).sweep 1) ∧
    dEx.ID = 7 :=
  ⟨C9_key_is_value_id.1 5,
   C9_key_is_value_id.2.1 (newCache 5) 0 dEx (by decide),
   C9_key_is_value_id.2.2.1 ((newCache 5).set 0 dEx) 1 (by decide),
   C9_key_is_value_id.2.2.2 ((newCache 5).set 0 dEx) 3 7 dEx (by decide) (by decide)⟩

/-- C10: a `get` on an expired-but-not-yet-swept entry reports absent yet
deletes nothing — the store's state is unchanged, the expired entry still
counts towards `length`, and `length` is exactly the raw size of the
entries map rather than the number of unexpired entries. -/
theorem C10_expired_entry_still_counted (c : cache) (now id : Int) (e : cacheEntry)
    (hfe : findEntry c.entries id = some e) (hexp : e.ttl < now) :
    c.get now id = none ∧
    (step (responseCache.cacheStore c) (Op.get now id)).1 =
      responseCache.cacheStore c ∧
    0 < c.length ∧
    c.length = c.entries.length := by
  refine ⟨?_, rfl, ?_, rfl⟩
  · unfold cache.get
    rw [hfe]
    dsimp only
    rw [if_pos (by omega)]
  · have hmem := findEntry_mem hfe
    cases hl : c.entries with
    | nil => rw [hl] at hmem; exact absurd hmem (List.not_mem_nil _)
    | cons hd tl =>
      unfold cache.length
      rw [hl]
      exact Nat.succ_pos _

/-- Closed instance of C10: TTL 5, write at time 0, read at time 6 (the
entry expired at 5 but has not been swept). -/
theorem C10_expired_entry_still_counted_witness :
    ((newCache 5).set 0 dEx).get 6 7 = none ∧
    (step (responseCache.cacheStore ((newCache 5).set 0 dEx)) (Op.get 6 7)).1 =
      responseCache.cacheStore ((newCache 5).set 0 dEx) ∧
    0 < ((newCache 5).set 0 dEx).length ∧
    ((newCache 5).set 0 dEx).length = ((newCache 5).set 0 dEx).entries.length :=
  C10_expired_entry_still_counted ((newCache 5).set 0 dEx) 6 7
    (cacheEntry.mk dEx 5) (by decide) (by decide)

